import Mathlib

/-!
# Verification of surfalize's batch module (`surfalize/batch.py`)

A shallow embedding of the batch-processing core: the deferred `Operation`
and `Parameter` records, `Parameter.calculate_from`, the per-file `_task`
function, and the `Batch` controller (`__init__`, `execute`, `__getattr__`,
`roughness_parameters`, `_construct_dataframe`).

The `Surface` data-object collaborator (surfalize/surface.py) and the helper
`is_list_like` (surfalize/utils.py) are not part of the sources under
verification; they are modelled from the specification as an abstract
interface (`SurfaceAPI`) over an arbitrary state type.  Python values are
modelled as scalars and flat sequences of scalars; Python dicts are modelled
as insertion-ordered association lists without duplicate keys, with inserts
of an existing key updating in place (`dictInsert`).  The pandas merge used
by `_construct_dataframe` is modelled by `mergeInner`, pandas' documented
inner-join-on-key semantics.  Parallel dispatch collects results in
completion order; the dispatcher is modelled sequentially (file-list order),
which is one admissible completion order and the one claims about record
contents depend on.
-/

namespace Surfalize

/-- Scalar Python values: None, int, str, bool. -/
inductive PyScalar where
  | pnone
  | pint (n : Int)
  | pstr (s : String)
  | pbool (b : Bool)
deriving DecidableEq, Repr

/-- A Python value as returned by a Surface method: either a scalar or a
flat ordered collection of scalars (list/tuple/array). -/
inductive PyVal where
  | scalar (v : PyScalar)
  | list (vs : List PyScalar)
deriving DecidableEq, Repr

/-- Modelled from the spec: `is_list_like` of surfalize/utils.py is not under
src/.  It recognizes ordered collections (the values a multi-valued parameter
returns); in this embedding these are exactly the `PyVal.list` values. -/
def is_list_like : PyVal → Bool
  | PyVal.list _ => true
  | _ => false

/-- One entry of a Python dict with string keys. -/
abbrev Entry := String × PyVal

/-- A Python dict with string keys: an insertion-ordered association list.
All dicts built by the batch module keep their keys pairwise distinct. -/
abbrev Dict := List Entry

/-- Python `d[k] = v`: if `k` is already a key, its value is updated in
place (position preserved); otherwise the binding is appended at the end. -/
def dictInsert (d : Dict) (k : String) (v : PyVal) : Dict :=
  if d.any (fun e => decide (e.1 = k)) then
    d.map (fun e => if e.1 = k then (k, v) else e)
  else
    d ++ [(k, v)]

/-- Python `d.update(es)`: insert every entry of `es` in order. -/
def dictUpdate (d : Dict) (es : List Entry) : Dict :=
  es.foldl (fun acc e => dictInsert acc e.1 e.2) d

/-- A Python dict built from a list of entries (dict literal or dict
comprehension): successive inserts into an empty dict. -/
def dictOf (es : List Entry) : Dict :=
  dictUpdate [] es

/-- Python `d[k]` as an optional lookup (first entry with key `k`). -/
def dictLookup (d : Dict) (k : String) : Option PyVal :=
  (d.find? (fun e => decide (e.1 = k))).map Prod.snd

/-- The keys of a dict, in order. -/
def dictKeys (d : Dict) : List String :=
  d.map Prod.fst

/-- The value of the last entry of `es` whose key is `k`, if any: the value
that survives when the entries are inserted into a dict left to right. -/
def lastValue (es : List Entry) (k : String) : Option PyVal :=
  es.foldl (fun acc e => if e.1 = k then Option.some e.2 else acc) Option.none

/-- A file path as `pathlib.Path` exposes it: its components.  `Batch`
converts every incoming path with `Path(file)`. -/
structure FPath where
  parts : List String
deriving DecidableEq, Repr

/-- `pathlib.Path.name`: the final component, the filename without any
directory components. -/
def FPath.name (p : FPath) : String :=
  p.parts.getLastD ""

/-- The errors the batch module can surface (`BatchError` with its two
messages, the `ValueError` of `Batch.__init__`, Python's `AttributeError`,
and a load failure of the Surface collaborator). -/
inductive PyError where
  | loadError (msg : String)
  | batchNoOpsOrParams
  | batchNoReturnLabels (identifier : String)
  | batchLabelCountMismatch
  | fileColumnMissing
  | attributeError (attr : String)
deriving DecidableEq, Repr

/-- Modelled from the spec: the `Surface` data-object collaborator
(surfalize/surface.py is not under src/), specified through the interface
the core consumes: a loader that can fail, named capabilities invocable with
positional and keyword arguments (operations mutate the state, parameters
compute a value), per-capability return labels (`method.return_labels`,
absent for single-valued capabilities), and the published enumerable set
`Surface.AVAILABLE_PARAMETERS`. -/
structure SurfaceAPI (S : Type) where
  load : FPath → Except String S
  runOp : S → String → List PyVal → List (String × PyVal) → S
  evalParam : S → String → List PyVal → List (String × PyVal) → PyVal
  returnLabels : String → Option (List String)
  availableParameters : List String

/-- `Operation`: the identifier and arguments of a registered call to a
mutating Surface method (batch.py lines 15-48). -/
structure Operation where
  identifier : String
  args : List PyVal
  kwargs : List (String × PyVal)
deriving DecidableEq, Repr

/-- `Operation.execute_on`: look the method up on the surface and invoke it
with the stored arguments; the return value is discarded and the surface's
own state is updated. -/
def Operation.execute_on {S : Type} (op : Operation) (api : SurfaceAPI S) (s : S) : S :=
  api.runOp s op.identifier op.args op.kwargs

/-- `Parameter`: the identifier and arguments of a registered call to a
Surface method that returns a parameter value (batch.py lines 50-67). -/
structure Parameter where
  identifier : String
  args : List PyVal
  kwargs : List (String × PyVal)
deriving DecidableEq, Repr

/-- `Parameter` with default arguments, as built by `Parameter(identifier)`. -/
def Parameter.ofIdentifier (identifier : String) : Parameter :=
  { identifier := identifier, args := [], kwargs := [] }

/-- `Parameter.calculate_from` (batch.py lines 69-107): invoke the method;
if the result is list-like, require registered return labels of matching
length and build `{identifier_label : value}`; otherwise build
`{identifier : value}`. -/
def Parameter.calculate_from {S : Type} (p : Parameter) (api : SurfaceAPI S) (s : S) :
    Except PyError Dict :=
  match api.evalParam s p.identifier p.args p.kwargs with
  | PyVal.list vs =>
    match api.returnLabels p.identifier with
    | Option.none => Except.error (PyError.batchNoReturnLabels p.identifier)
    | Option.some labels =>
      if vs.length ≠ labels.length then
        Except.error PyError.batchLabelCountMismatch
      else
        Except.ok (dictOf (List.zipWith
          (fun v label => (p.identifier ++ "_" ++ label, PyVal.scalar v)) vs labels))
  | v => Except.ok [(p.identifier, v)]

/-- The parameter loop of `_task` (batch.py lines 133-135): calculate each
parameter on the surface in order, merging each result dict into the
accumulated record; the first error aborts. -/
def taskLoop {S : Type} (api : SurfaceAPI S) (s : S) (params : List Parameter)
    (acc : Dict) : Except PyError Dict :=
  match params with
  | [] => Except.ok acc
  | p :: rest =>
    match p.calculate_from api s with
    | Except.error e => Except.error e
    | Except.ok result => taskLoop api s rest (dictUpdate acc result)

/-- `_task` (batch.py lines 109-136): load the surface, execute every
operation on it in registration order (each seeing the state the previous
ones left), then start the record at `{file : filepath.name}` and evaluate
every parameter in registration order on the final surface. -/
def task {S : Type} (api : SurfaceAPI S) (filepath : FPath)
    (operations : List Operation) (parameters : List Parameter) :
    Except PyError Dict :=
  match api.load filepath with
  | Except.error msg => Except.error (PyError.loadError msg)
  | Except.ok s0 =>
    let surface := operations.foldl (fun s op => op.execute_on api s) s0
    taskLoop api surface parameters [("file", PyVal.scalar (PyScalar.pstr filepath.name))]

/-- The values of the registered parameters, each calculated on the same
surface state, in registration order; the first error aborts.  This is the
list of per-parameter result dicts `_task` merges. -/
def evalParams {S : Type} (api : SurfaceAPI S) (s : S) (params : List Parameter) :
    Except PyError (List Dict) :=
  match params with
  | [] => Except.ok []
  | p :: rest =>
    match p.calculate_from api s with
    | Except.error e => Except.error e
    | Except.ok r => (evalParams api s rest).map (fun rs => r :: rs)

/-- A tabular dataset (pandas DataFrame): named columns and one dict per
row.  The external metadata table loaded by `pd.read_excel` is consumed in
this form. -/
structure Table where
  columns : List String
  rows : List Dict
deriving DecidableEq, Repr

/-- pandas `pd.merge(left, right, on=key)` with its default inner-join
semantics: for each left row in order, each right row whose `key` value is
equal contributes one output row, the left row's entries extended by the
right row's. -/
def mergeInner (key : String) (left right : List Dict) : List Dict :=
  left.flatMap (fun lr =>
    (right.filter (fun rr => decide (dictLookup rr key = dictLookup lr key))).map
      (fun rr => dictUpdate lr rr))

/-- The `Batch` controller state: the file list, the pending operation and
parameter lists, and the optional external metadata table
(batch.py lines 189-198). -/
structure Batch where
  filepaths : List FPath
  operations : List Operation
  parameters : List Parameter
  additional_data : Option Table
deriving DecidableEq, Repr

/-- `Batch.__init__` (batch.py lines 189-198): store the file list and empty
pending lists; when a metadata table is supplied (already loaded from the
spreadsheet, the reading mechanism being external), require that it contain
a column named `file`, failing with a `ValueError` otherwise. -/
def Batch.init (filepaths : List FPath) (additional_data : Option Table) :
    Except PyError Batch :=
  match additional_data with
  | Option.none =>
    Except.ok { filepaths := filepaths, operations := [], parameters := [],
                additional_data := Option.none }
  | Option.some t =>
    if "file" ∈ t.columns then
      Except.ok { filepaths := filepaths, operations := [], parameters := [],
                  additional_data := Option.some t }
    else
      Except.error PyError.fileColumnMissing

/-- `Batch._disptach_tasks` in sequential mode (batch.py lines 228-230):
run `_task` on every file in file-list order, collecting the records; the
first per-task failure aborts the batch (in parallel mode the pool raises
the first failing task's error as well, and records arrive in completion
order instead). -/
def dispatchTasks {S : Type} (api : SurfaceAPI S) (filepaths : List FPath)
    (operations : List Operation) (parameters : List Parameter) :
    Except PyError (List Dict) :=
  match filepaths with
  | [] => Except.ok []
  | fp :: rest =>
    match task api fp operations parameters with
    | Except.error e => Except.error e
    | Except.ok r => (dispatchTasks api rest operations parameters).map (fun rs => r :: rs)

/-- `Batch._construct_dataframe` (batch.py lines 232-248): build the result
table from the per-file records; when metadata was supplied, replace it by
`pd.merge(additional_data, results, on='file')`.  Only the rows are
modelled. -/
def constructDataframe (b : Batch) (results : List Dict) : List Dict :=
  match b.additional_data with
  | Option.none => results
  | Option.some t => mergeInner "file" t.rows results

/-- `Batch.execute` (batch.py lines 250-276): fail with
`BatchError('No operations of parameters defined.')` when both pending
lists are empty, before anything is dispatched; otherwise dispatch the
tasks and assemble the result table.  The optional `saveto` export is an
external side effect and is not modelled. -/
def Batch.execute {S : Type} (api : SurfaceAPI S) (b : Batch) :
    Except PyError (List Dict) :=
  if b.parameters.isEmpty && b.operations.isEmpty then
    Except.error PyError.batchNoOpsOrParams
  else
    match dispatchTasks api b.filepaths b.operations b.parameters with
    | Except.error e => Except.error e
    | Except.ok results => Except.ok (constructDataframe b results)

/-- `Batch.__getattr__` followed by the call of the returned dummy method
(batch.py lines 443-460), for an identifier that is not an explicitly
defined attribute: when the identifier is one of
`Surface.AVAILABLE_PARAMETERS`, calling it appends one `Parameter` with the
given arguments and returns the controller; otherwise the access raises
`AttributeError`, exactly as for a genuinely missing attribute. -/
def Batch.getattrCall {S : Type} (api : SurfaceAPI S) (b : Batch) (attr : String)
    (args : List PyVal) (kwargs : List (String × PyVal)) : Except PyError Batch :=
  if attr ∈ api.availableParameters then
    Except.ok { b with parameters :=
      b.parameters ++ [{ identifier := attr, args := args, kwargs := kwargs }] }
  else
    Except.error (PyError.attributeError attr)

/-- An entry of the list passed to `Batch.roughness_parameters`: either a
bare identifier string or a fully specified `Parameter`. -/
inductive ParamSpec where
  | ident (s : String)
  | param (p : Parameter)
deriving DecidableEq, Repr

/-- The `Parameter` a `ParamSpec` entry registers: a bare string becomes a
default-argument `Parameter`, a `Parameter` is registered as-is. -/
def ParamSpec.toParameter : ParamSpec → Parameter
  | ParamSpec.ident s => Parameter.ofIdentifier s
  | ParamSpec.param p => p

/-- `Batch.roughness_parameters` (batch.py lines 462-504): with no argument,
take every identifier of `Surface.AVAILABLE_PARAMETERS`; with an explicit
list, take its entries; append, in order, a default-argument `Parameter`
for each string and each given `Parameter` unchanged, returning the
controller. -/
def Batch.roughness_parameters {S : Type} (api : SurfaceAPI S) (b : Batch)
    (parameters : Option (List ParamSpec)) : Batch :=
  let ps : List ParamSpec :=
    match parameters with
    | Option.none => api.availableParameters.map ParamSpec.ident
    | Option.some l => l
  ps.foldl (fun acc spec =>
    { acc with parameters := acc.parameters ++ [spec.toParameter] }) b

/-! ## Dict lemmas -/

theorem dictLookup_cons (e : Entry) (d : Dict) (k : String) :
    dictLookup (e :: d) k = if e.1 = k then Option.some e.2 else dictLookup d k := by
  by_cases h : e.1 = k <;> simp [dictLookup, List.find?_cons, h]

theorem anyKey_iff (d : Dict) (k : String) :
    d.any (fun e => decide (e.1 = k)) = true ↔ k ∈ dictKeys d := by
  rw [List.any_eq_true]
  constructor
  · rintro ⟨e, he, hdec⟩
    exact (of_decide_eq_true hdec) ▸ List.mem_map_of_mem Prod.fst he
  · intro hmem
    rcases List.mem_map.mp hmem with ⟨e, he, hek⟩
    exact ⟨e, he, by simp [hek]⟩

theorem dictLookup_eq_none (d : Dict) (k : String) (h : k ∉ dictKeys d) :
    dictLookup d k = Option.none := by
  have : List.find? (fun e => decide (e.1 = k)) d = Option.none := by
    rw [List.find?_eq_none]
    intro e he hdec
    exact h ((of_decide_eq_true hdec) ▸ List.mem_map_of_mem Prod.fst he)
  simp [dictLookup, this]

theorem dictLookup_append (d₁ d₂ : Dict) (k : String) :
    dictLookup (d₁ ++ d₂) k = (dictLookup d₁ k).or (dictLookup d₂ k) := by
  simp only [dictLookup, List.find?_append]
  cases List.find? (fun e => decide (e.1 = k)) d₁ <;> simp [Option.or]

theorem dictInsert_of_notMem (d : Dict) (k : String) (v : PyVal)
    (h : k ∉ dictKeys d) : dictInsert d k v = d ++ [(k, v)] := by
  have hany : d.any (fun e => decide (e.1 = k)) = false := by
    rw [Bool.eq_false_iff]
    intro hh
    exact h ((anyKey_iff d k).mp hh)
  simp [dictInsert, hany]

theorem dictLookup_map_self (d : Dict) (k : String) (v : PyVal)
    (hmem : k ∈ dictKeys d) :
    dictLookup (d.map (fun x => if x.1 = k then (k, v) else x)) k
      = Option.some v := by
  induction d with
  | nil => simp [dictKeys] at hmem
  | cons a l ih =>
    by_cases hak : a.1 = k
    · simp [List.map_cons, hak, dictLookup_cons]
    · have hmem' : k ∈ dictKeys l := by
        rcases List.mem_cons.mp hmem with h1 | h1
        · exact absurd h1.symm hak
        · exact h1
      simp only [List.map_cons, if_neg hak]
      rw [dictLookup_cons, if_neg hak, ih hmem']

theorem dictLookup_map_other (d : Dict) (k k' : String) (v : PyVal)
    (h : k' ≠ k) :
    dictLookup (d.map (fun x => if x.1 = k then (k, v) else x)) k'
      = dictLookup d k' := by
  have hkk' : ¬(k = k') := fun hh => h hh.symm
  induction d with
  | nil => rfl
  | cons a l ih =>
    by_cases hak : a.1 = k
    · have haknot : ¬(a.1 = k') := fun hh => hkk' (hak ▸ hh)
      simp only [List.map_cons, if_pos hak]
      rw [dictLookup_cons, dictLookup_cons]
      simp only [if_neg hkk', if_neg haknot]
      exact ih
    · simp only [List.map_cons, if_neg hak]
      rw [dictLookup_cons, dictLookup_cons]
      by_cases hak' : a.1 = k'
      · simp [hak']
      · simp only [if_neg hak']
        exact ih

theorem dictLookup_dictInsert_self (d : Dict) (k : String) (v : PyVal) :
    dictLookup (dictInsert d k v) k = Option.some v := by
  by_cases hany : d.any (fun e => decide (e.1 = k)) = true
  · simp only [dictInsert, hany, if_true]
    exact dictLookup_map_self d k v ((anyKey_iff d k).mp hany)
  · have hnot : k ∉ dictKeys d := fun hh => hany ((anyKey_iff d k).mpr hh)
    rw [dictInsert_of_notMem d k v hnot, dictLookup_append,
        dictLookup_eq_none d k hnot]
    simp [dictLookup_cons, Option.or]

theorem dictLookup_dictInsert_other (d : Dict) (k k' : String) (v : PyVal)
    (h : k' ≠ k) : dictLookup (dictInsert d k v) k' = dictLookup d k' := by
  by_cases hany : d.any (fun e => decide (e.1 = k)) = true
  · simp only [dictInsert, hany, if_true]
    exact dictLookup_map_other d k k' v h
  · have hnot : k ∉ dictKeys d := fun hh => hany ((anyKey_iff d k).mpr hh)
    rw [dictInsert_of_notMem d k v hnot, dictLookup_append]
    have hkk' : ¬(k = k') := fun hh => h hh.symm
    have : dictLookup [(k, v)] k' = Option.none := by
      rw [dictLookup_cons]
      simp [hkk', dictLookup]
    rw [this]
    cases dictLookup d k' <;> rfl

theorem dictKeys_dictInsert_of_mem (d : Dict) (k : String) (v : PyVal)
    (h : d.any (fun e => decide (e.1 = k)) = true) :
    dictKeys (dictInsert d k v) = dictKeys d := by
  simp only [dictInsert, h, if_true, dictKeys, List.map_map]
  apply List.map_congr_left
  intro e _
  by_cases hek : e.1 = k <;> simp [hek]

theorem dictKeys_dictInsert_nodup (d : Dict) (k : String) (v : PyVal)
    (h : (dictKeys d).Nodup) : (dictKeys (dictInsert d k v)).Nodup := by
  by_cases hany : d.any (fun e => decide (e.1 = k)) = true
  · rw [dictKeys_dictInsert_of_mem d k v hany]
    exact h
  · have hnot : k ∉ dictKeys d := fun hh => hany ((anyKey_iff d k).mpr hh)
    rw [dictInsert_of_notMem d k v hnot]
    simp only [dictKeys, List.map_append]
    rw [List.nodup_append]
    refine ⟨h, List.nodup_singleton k, ?_⟩
    intro x hx hx'
    simp only [List.map_cons, List.map_nil, List.mem_singleton] at hx'
    exact hnot (hx' ▸ hx)

theorem dictKeys_dictUpdate_nodup (es : List Entry) (d : Dict)
    (h : (dictKeys d).Nodup) : (dictKeys (dictUpdate d es)).Nodup := by
  induction es generalizing d with
  | nil => exact h
  | cons e es ih =>
    exact ih (dictInsert d e.1 e.2) (dictKeys_dictInsert_nodup d e.1 e.2 h)

theorem dictUpdate_of_fresh (es : List Entry) (d : Dict)
    (hdisj : ∀ e ∈ es, e.1 ∉ dictKeys d) (hnd : (es.map Prod.fst).Nodup) :
    dictUpdate d es = d ++ es := by
  induction es generalizing d with
  | nil => simp [dictUpdate]
  | cons e es ih =>
    have h1 : dictInsert d e.1 e.2 = d ++ [e] := by
      rw [dictInsert_of_notMem d e.1 e.2 (hdisj e (List.mem_cons_self e es))]
    have step : dictUpdate d (e :: es) = dictUpdate (d ++ [e]) es := by
      simp only [dictUpdate, List.foldl_cons]
      rw [h1]
    rw [step, ih (d ++ [e])]
    · simp
    · intro x hx
      simp only [dictKeys, List.map_append, List.mem_append]
      rintro (hmem | hmem)
      · exact hdisj x (List.mem_cons_of_mem e hx) hmem
      · simp only [List.map_cons, List.map_nil, List.mem_singleton] at hmem
        rw [List.map_cons, List.nodup_cons] at hnd
        exact hnd.1 (hmem ▸ List.mem_map_of_mem Prod.fst hx)
    · rw [List.map_cons, List.nodup_cons] at hnd
      exact hnd.2

theorem lastValue_foldl (es : List Entry) (k : String) (acc : Option PyVal) :
    es.foldl (fun a e => if e.1 = k then Option.some e.2 else a) acc
      = (lastValue es k).or acc := by
  induction es generalizing acc with
  | nil => simp [lastValue, Option.or]
  | cons e es ih =>
    simp only [lastValue, List.foldl_cons] at ih ⊢
    by_cases hek : e.1 = k
    · simp only [if_pos hek]
      rw [ih (Option.some e.2), Option.or_assoc, Option.or_some]
    · simp only [if_neg hek]
      exact ih acc

theorem lastValue_append (es es' : List Entry) (k : String) :
    lastValue (es ++ es') k = (lastValue es' k).or (lastValue es k) := by
  simp only [lastValue, List.foldl_append]
  exact lastValue_foldl es' k _

theorem dictLookup_dictUpdate (es : List Entry) (d : Dict) (k : String) :
    dictLookup (dictUpdate d es) k = (lastValue es k).or (dictLookup d k) := by
  induction es generalizing d with
  | nil => simp [dictUpdate, lastValue, Option.or]
  | cons e es ih =>
    have step : dictUpdate d (e :: es) = dictUpdate (dictInsert d e.1 e.2) es := by
      simp [dictUpdate, List.foldl_cons]
    rw [step, ih]
    have hhead : lastValue (e :: es) k
        = (lastValue es k).or (if e.1 = k then Option.some e.2 else Option.none) := by
      have := lastValue_foldl es k (if e.1 = k then Option.some e.2 else Option.none)
      simpa [lastValue, List.foldl_cons] using this
    rw [hhead]
    by_cases hek : e.1 = k
    · subst hek
      rw [dictLookup_dictInsert_self]
      cases lastValue es e.1 <;> simp [Option.or]
    · rw [dictLookup_dictInsert_other d e.1 k e.2 (fun hh => hek hh.symm)]
      cases lastValue es k <;> simp [Option.or, hek]

/-! ## Task machinery lemmas -/

theorem calculate_from_error_shape {S : Type} (api : SurfaceAPI S) (s : S)
    (p : Parameter) (e : PyError)
    (h : p.calculate_from api s = Except.error e) :
    e = PyError.batchNoReturnLabels p.identifier ∨ e = PyError.batchLabelCountMismatch := by
  unfold Parameter.calculate_from at h
  cases hres : api.evalParam s p.identifier p.args p.kwargs with
  | scalar v =>
    rw [hres] at h
    cases h
  | list vs =>
    rw [hres] at h
    cases hlab : api.returnLabels p.identifier with
    | none =>
      rw [hlab] at h
      injection h with h
      exact Or.inl h.symm
    | some labels =>
      rw [hlab] at h
      dsimp only at h
      by_cases hlen : vs.length ≠ labels.length
      · rw [if_pos hlen] at h
        injection h with h
        exact Or.inr h.symm
      · rw [if_neg hlen] at h
        cases h

theorem taskLoop_ok_of_evalParams {S : Type} (api : SurfaceAPI S) (s : S)
    (params : List Parameter) (es : List Dict)
    (h : evalParams api s params = Except.ok es) :
    ∀ acc, taskLoop api s params acc = Except.ok (es.foldl dictUpdate acc) := by
  induction params generalizing es with
  | nil =>
    intro acc
    unfold evalParams at h
    injection h with h
    subst h
    rfl
  | cons p rest ih =>
    intro acc
    unfold evalParams at h
    cases hc : p.calculate_from api s with
    | error e =>
      rw [hc] at h
      cases h
    | ok r =>
      rw [hc] at h
      cases hrest : evalParams api s rest with
      | error e =>
        rw [hrest] at h
        cases h
      | ok rs =>
        rw [hrest] at h
        simp only [Except.map] at h
        injection h with h
        subst h
        show taskLoop api s (p :: rest) acc
          = Except.ok ((r :: rs).foldl dictUpdate acc)
        unfold taskLoop
        rw [hc]
        exact ih rs hrest (dictUpdate acc r)

theorem taskLoop_error {S : Type} (api : SurfaceAPI S) (s : S)
    (params : List Parameter) (acc : Dict) (e : PyError)
    (h : taskLoop api s params acc = Except.error e) :
    ∃ p ∈ params, p.calculate_from api s = Except.error e := by
  induction params generalizing acc with
  | nil => cases h
  | cons p rest ih =>
    unfold taskLoop at h
    cases hc : p.calculate_from api s with
    | error e' =>
      rw [hc] at h
      injection h with h
      exact ⟨p, List.mem_cons_self p rest, by rw [hc, h]⟩
    | ok r =>
      rw [hc] at h
      rcases ih (dictUpdate acc r) h with ⟨q, hq, hqe⟩
      exact ⟨q, List.mem_cons_of_mem p hq, hqe⟩

/-- The final surface state of `_task`: the loaded object after every
operation was executed on it in registration order, each seeing the
cumulative effect of the previous ones. -/
def finalSurface {S : Type} (api : SurfaceAPI S) (s0 : S)
    (operations : List Operation) : S :=
  operations.foldl (fun s op => op.execute_on api s) s0

theorem task_ok {S : Type} (api : SurfaceAPI S) (fp : FPath)
    (ops : List Operation) (params : List Parameter) (s0 : S) (es : List Dict)
    (hload : api.load fp = Except.ok s0)
    (hev : evalParams api (finalSurface api s0 ops) params = Except.ok es) :
    task api fp ops params
      = Except.ok (es.foldl dictUpdate
          [("file", PyVal.scalar (PyScalar.pstr fp.name))]) := by
  unfold task
  rw [hload]
  exact taskLoop_ok_of_evalParams api _ params es hev _

theorem task_error_shape {S : Type} (api : SurfaceAPI S) (fp : FPath)
    (ops : List Operation) (params : List Parameter) (e : PyError)
    (h : task api fp ops params = Except.error e) :
    (∃ msg, e = PyError.loadError msg)
      ∨ (∃ idf, e = PyError.batchNoReturnLabels idf)
      ∨ e = PyError.batchLabelCountMismatch := by
  unfold task at h
  cases hl : api.load fp with
  | error msg =>
    rw [hl] at h
    injection h with h
    exact Or.inl ⟨msg, h.symm⟩
  | ok s0 =>
    rw [hl] at h
    rcases taskLoop_error api _ params _ e h with ⟨p, _, hpe⟩
    rcases calculate_from_error_shape api _ p e hpe with h1 | h1
    · exact Or.inr (Or.inl ⟨p.identifier, h1⟩)
    · exact Or.inr (Or.inr h1)

theorem dispatchTasks_error {S : Type} (api : SurfaceAPI S) (fps : List FPath)
    (ops : List Operation) (params : List Parameter) (e : PyError)
    (h : dispatchTasks api fps ops params = Except.error e) :
    ∃ fp ∈ fps, task api fp ops params = Except.error e := by
  induction fps with
  | nil => cases h
  | cons fp rest ih =>
    unfold dispatchTasks at h
    cases ht : task api fp ops params with
    | error e' =>
      rw [ht] at h
      injection h with h
      exact ⟨fp, List.mem_cons_self fp rest, by rw [ht, h]⟩
    | ok r =>
      rw [ht] at h
      cases hrest : dispatchTasks api rest ops params with
      | error e' =>
        rw [hrest] at h
        simp only [Except.map] at h
        injection h with h
        subst h
        rcases ih hrest with ⟨fq, hfq, hfe⟩
        exact ⟨fq, List.mem_cons_of_mem fp hfq, hfe⟩
      | ok rs =>
        rw [hrest] at h
        cases h

/-! ## Record-shape lemmas -/

theorem dictOf_eq_self (es : List Entry) (h : (es.map Prod.fst).Nodup) :
    dictOf es = es := by
  unfold dictOf
  rw [dictUpdate_of_fresh es [] (by intro e _; simp [dictKeys]) h]
  simp

theorem foldl_dictUpdate_flatten (es : List Dict) (acc : Dict)
    (h : (dictKeys acc ++ es.flatten.map Prod.fst).Nodup) :
    es.foldl dictUpdate acc = acc ++ es.flatten := by
  induction es generalizing acc with
  | nil => simp
  | cons d es ih =>
    rw [List.flatten_cons, List.map_append] at h
    have h' : ((dictKeys acc ++ d.map Prod.fst) ++ es.flatten.map Prod.fst).Nodup := by
      rw [List.append_assoc]
      exact h
    have hparts := List.nodup_append.mp h
    have hdks : (d.map Prod.fst).Nodup :=
      (List.nodup_append.mp hparts.2.1).1
    have hfresh : ∀ e ∈ d, e.1 ∉ dictKeys acc := by
      intro e he hmem
      exact hparts.2.2 hmem (List.mem_append_left _ (List.mem_map_of_mem Prod.fst he))
    have hstep : dictUpdate acc d = acc ++ d := dictUpdate_of_fresh d acc hfresh hdks
    rw [List.foldl_cons, hstep, ih (acc ++ d) (by simpa [dictKeys] using h'),
        List.flatten_cons, List.append_assoc]

theorem foldl_dictUpdate_nodup (es : List Dict) (acc : Dict)
    (h : (dictKeys acc).Nodup) : (dictKeys (es.foldl dictUpdate acc)).Nodup := by
  induction es generalizing acc with
  | nil => exact h
  | cons d es ih =>
    rw [List.foldl_cons]
    exact ih (dictUpdate acc d) (dictKeys_dictUpdate_nodup d acc h)

theorem dictLookup_foldl_dictUpdate (es : List Dict) (acc : Dict) (k : String) :
    dictLookup (es.foldl dictUpdate acc) k
      = (lastValue es.flatten k).or (dictLookup acc k) := by
  induction es generalizing acc with
  | nil => simp [lastValue, Option.or]
  | cons d es ih =>
    rw [List.foldl_cons, ih (dictUpdate acc d), dictLookup_dictUpdate,
        List.flatten_cons, lastValue_append, Option.or_assoc]

theorem lastValue_eq_none_of_notMem (d : Dict) (k : String)
    (h : k ∉ dictKeys d) : lastValue d k = Option.none := by
  induction d with
  | nil => rfl
  | cons e d ih =>
    have hek : ¬(e.1 = k) := fun hh => h (hh ▸ List.mem_cons_self e.1 (dictKeys d))
    have h' : k ∉ dictKeys d := fun hh => h (List.mem_cons_of_mem e.1 hh)
    have hhead := lastValue_foldl d k (if e.1 = k then Option.some e.2 else Option.none)
    simp only [lastValue, List.foldl_cons] at ih ⊢
    rw [hhead, if_neg hek, Option.or_none]
    exact ih h'

theorem lastValue_cons (e : Entry) (es : List Entry) (k : String) :
    lastValue (e :: es) k
      = (lastValue es k).or (if e.1 = k then Option.some e.2 else Option.none) := by
  have h1 : lastValue (e :: es) k
      = es.foldl (fun a x => if x.1 = k then Option.some x.2 else a)
          (if e.1 = k then Option.some e.2 else Option.none) := by
    simp [lastValue, List.foldl_cons]
  rw [h1, lastValue_foldl]

theorem lastValue_eq_dictLookup (d : Dict) (k : String)
    (h : (dictKeys d).Nodup) : lastValue d k = dictLookup d k := by
  induction d with
  | nil => rfl
  | cons e d ih =>
    have hparts := List.nodup_cons.mp h
    rw [lastValue_cons, dictLookup_cons]
    by_cases hek : e.1 = k
    · rw [if_pos hek, if_pos hek,
          lastValue_eq_none_of_notMem d k (hek ▸ hparts.1)]
      rfl
    · rw [if_neg hek, if_neg hek, Option.or_none]
      exact ih hparts.2

theorem map_fst_zipWith_key (idf : String) (vs : List PyScalar)
    (labels : List String) (hlen : labels.length = vs.length) :
    (List.zipWith (fun v label => (idf ++ "_" ++ label, PyVal.scalar v)) vs labels).map
        Prod.fst
      = labels.map (fun label => idf ++ "_" ++ label) := by
  induction vs generalizing labels with
  | nil =>
    cases labels with
    | nil => rfl
    | cons l ls => simp at hlen
  | cons v vs ih =>
    cases labels with
    | nil => simp at hlen
    | cons l ls =>
      simp only [List.zipWith_cons_cons, List.map_cons]
      rw [ih ls (by simpa using hlen)]

theorem appendKey_injective (idf : String) :
    Function.Injective (fun label => idf ++ "_" ++ label) := by
  intro a b h
  have h2 := congrArg String.data h
  simp only [String.data_append] at h2
  exact String.ext (List.append_cancel_left h2)

/-! ## Concrete fixtures -/

/-- Shorthand for a string-valued cell. -/
def strv (s : String) : PyVal := PyVal.scalar (PyScalar.pstr s)

/-- Shorthand for an integer-valued cell. -/
def intv (n : Int) : PyVal := PyVal.scalar (PyScalar.pint n)

/-- A concrete Surface collaborator over an integer state, used to
instantiate the theorems at concrete inputs: two order-sensitive operations
(`add2`, `double`), scalar parameters `Sa`/`Sq`, a correctly labelled
two-valued parameter `pair`, a two-valued parameter `badpair` carrying one
label, and a scalar capability named `file`. -/
def demoApi : SurfaceAPI Int where
  load := fun _ => Except.ok 0
  runOp := fun s identifier _ _ =>
    if identifier = "add2" then s + 2
    else if identifier = "double" then s * 2
    else s
  evalParam := fun s identifier _ _ =>
    if identifier = "Sa" then PyVal.scalar (PyScalar.pint s)
    else if identifier = "Sq" then PyVal.scalar (PyScalar.pint (s + 1))
    else if identifier = "pair" then PyVal.list [PyScalar.pint s, PyScalar.pint (s + 1)]
    else if identifier = "badpair" then PyVal.list [PyScalar.pint 7, PyScalar.pint 8]
    else if identifier = "file" then PyVal.scalar (PyScalar.pint 42)
    else PyVal.scalar PyScalar.pnone
  returnLabels := fun identifier =>
    if identifier = "pair" then Option.some ["p", "q"]
    else if identifier = "badpair" then Option.some ["a"]
    else Option.none
  availableParameters := ["Sa", "Sq", "pair"]

/-- The operation registering `Surface.add2`. -/
def opAdd2 : Operation := { identifier := "add2", args := [], kwargs := [] }

/-- The operation registering `Surface.double`. -/
def opDouble : Operation := { identifier := "double", args := [], kwargs := [] }

/-- An empty batch over no files and no metadata. -/
def emptyBatch : Batch :=
  { filepaths := [], operations := [], parameters := [], additional_data := Option.none }

/-- A metadata row for file `a.ext`. -/
def mdRowA : Dict := [("file", strv "a.ext"), ("thickness", intv 5)]

/-- A per-file result row for `a.ext`. -/
def resRowA : Dict := [("file", strv "a.ext"), ("Sa", intv 1)]

/-- A per-file result row for `c.ext`, for which no metadata row exists. -/
def resRowC : Dict := [("file", strv "c.ext"), ("Sa", intv 3)]

/-- A metadata table holding only the `a.ext` row. -/
def mdTable : Table := { columns := ["file", "thickness"], rows := [mdRowA] }

/-- A batch constructed with `mdTable` as external metadata. -/
def batchWithMeta : Batch :=
  { filepaths := [], operations := [], parameters := [],
    additional_data := Option.some mdTable }

/-- A metadata table without a `file` column. -/
def noFileTable : Table := { columns := ["thickness"], rows := [] }

/-! ## Claim theorems -/

/-- C1: for every file path, every registered operation list and every
registered parameter list, `_task` loads the data object from the path,
executes the operations one by one in exactly registration order against
that same object — `finalSurface` is the left fold of the operations over
the loaded object, so each operation sees the cumulative effect of all
earlier ones — then evaluates the parameters in registration order against
that final mutated object, and returns a single flat record holding a
`file` entry equal to the file's name without any directory components
followed by every parameter result entry.  The hypotheses make the claim's
presuppositions explicit: the load and every parameter evaluation succeed,
and the produced result keys are pairwise distinct and distinct from
`file` (colliding keys are the subject of C10). -/
theorem task_record_spec {S : Type} (api : SurfaceAPI S) (dirs : List String)
    (base : String) (ops : List Operation) (params : List Parameter)
    (s0 : S) (es : List Dict)
    (hload : api.load ⟨dirs ++ [base]⟩ = Except.ok s0)
    (hev : evalParams api (finalSurface api s0 ops) params = Except.ok es)
    (hkeys : ("file" :: es.flatten.map Prod.fst).Nodup) :
    task api ⟨dirs ++ [base]⟩ ops params
      = Except.ok (("file", PyVal.scalar (PyScalar.pstr base)) :: es.flatten) := by
  rw [task_ok api ⟨dirs ++ [base]⟩ ops params s0 es hload hev]
  have hname : FPath.name ⟨dirs ++ [base]⟩ = base := by
    simp [FPath.name, List.getLastD_concat]
  rw [hname]
  have hflat : es.foldl dictUpdate [("file", PyVal.scalar (PyScalar.pstr base))]
      = [("file", PyVal.scalar (PyScalar.pstr base))] ++ es.flatten := by
    apply foldl_dictUpdate_flatten
    simpa [dictKeys] using hkeys
  rw [hflat]
  rfl

/-- Witness for C1 at a concrete input: loading `dir/a.ext` into the demo
collaborator, running the order-sensitive operations `add2` then `double`
(final state `(0 + 2) * 2 = 4`) and measuring `Sa` yields the record with
the bare filename and the `Sa` value computed on the final state. -/
theorem task_record_spec_witness :
    task demoApi ⟨["dir", "a.ext"]⟩ [opAdd2, opDouble] [Parameter.ofIdentifier "Sa"]
      = Except.ok [("file", PyVal.scalar (PyScalar.pstr "a.ext")),
                   ("Sa", PyVal.scalar (PyScalar.pint 4))] :=
  task_record_spec demoApi ["dir"] "a.ext" [opAdd2, opDouble]
    [Parameter.ofIdentifier "Sa"] 0 [[("Sa", PyVal.scalar (PyScalar.pint 4))]]
    rfl rfl (by decide)

/-- C2: result-key construction of `Parameter.calculate_from`: a single
scalar return yields exactly the one-entry mapping keyed by the identifier;
a return of two or more values whose capability carries pairwise-distinct
labels of equal length yields exactly the mapping keyed
`identifier_label`, pairing values with labels by position. -/
theorem calculate_from_result_keys {S : Type} (api : SurfaceAPI S) (s : S)
    (p : Parameter) :
    (∀ v : PyScalar,
        api.evalParam s p.identifier p.args p.kwargs = PyVal.scalar v →
        p.calculate_from api s = Except.ok [(p.identifier, PyVal.scalar v)])
    ∧ (∀ (vs : List PyScalar) (labels : List String),
        api.evalParam s p.identifier p.args p.kwargs = PyVal.list vs →
        2 ≤ vs.length →
        api.returnLabels p.identifier = Option.some labels →
        labels.length = vs.length →
        labels.Nodup →
        p.calculate_from api s
          = Except.ok (List.zipWith
              (fun v label => (p.identifier ++ "_" ++ label, PyVal.scalar v))
              vs labels)) := by
  constructor
  · intro v hres
    unfold Parameter.calculate_from
    rw [hres]
  · intro vs labels hres _ hlab hlen hnd
    unfold Parameter.calculate_from
    rw [hres, hlab]
    dsimp only
    rw [if_neg (by rw [hlen]; exact fun hh => hh rfl)]
    have hkeys : ((List.zipWith
        (fun v label => (p.identifier ++ "_" ++ label, PyVal.scalar v))
        vs labels).map Prod.fst).Nodup := by
      rw [map_fst_zipWith_key p.identifier vs labels hlen]
      exact hnd.map (appendKey_injective p.identifier)
    rw [dictOf_eq_self _ hkeys]

/-- Witness for C2 at concrete inputs: on the demo collaborator the scalar
parameter `Sa` yields the single-entry mapping, and the two-valued
parameter `pair` with labels `p`, `q` yields the mapping keyed `pair_p`,
`pair_q` in order. -/
theorem calculate_from_result_keys_witness :
    Parameter.calculate_from (Parameter.ofIdentifier "Sa") demoApi 0
      = Except.ok [("Sa", PyVal.scalar (PyScalar.pint 0))]
    ∧ Parameter.calculate_from (Parameter.ofIdentifier "pair") demoApi 0
      = Except.ok [("pair_p", PyVal.scalar (PyScalar.pint 0)),
                   ("pair_q", PyVal.scalar (PyScalar.pint 1))] :=
  ⟨(calculate_from_result_keys demoApi 0 (Parameter.ofIdentifier "Sa")).1
      (PyScalar.pint 0) rfl,
   (calculate_from_result_keys demoApi 0 (Parameter.ofIdentifier "pair")).2
      [PyScalar.pint 0, PyScalar.pint 1] ["p", "q"] rfl (by decide) rfl rfl (by decide)⟩

/-- C3: evaluating a registered parameter raises a batch-specific
configuration error — `BatchError` with the no-return-labels message or the
label-count-mismatch message — if and only if the capability's return value
is a list-like collection and either no return labels are registered for
the capability or the label count differs from the value count.  In the
failing cases the function returns the error and no result mapping. -/
theorem calculate_from_config_error_iff {S : Type} (api : SurfaceAPI S) (s : S)
    (p : Parameter) :
    (p.calculate_from api s = Except.error (PyError.batchNoReturnLabels p.identifier)
      ∨ p.calculate_from api s = Except.error PyError.batchLabelCountMismatch)
    ↔ (∃ vs, api.evalParam s p.identifier p.args p.kwargs = PyVal.list vs
        ∧ (api.returnLabels p.identifier = Option.none
            ∨ ∃ labels, api.returnLabels p.identifier = Option.some labels
                ∧ vs.length ≠ labels.length)) := by
  unfold Parameter.calculate_from
  cases hres : api.evalParam s p.identifier p.args p.kwargs with
  | scalar v =>
    dsimp only
    constructor
    · rintro (h | h) <;> cases h
    · rintro ⟨vs, hvs, _⟩
      cases hvs
  | list vs =>
    dsimp only
    cases hlab : api.returnLabels p.identifier with
    | none =>
      dsimp only
      constructor
      · intro _
        exact ⟨vs, rfl, Or.inl rfl⟩
      · intro _
        exact Or.inl rfl
    | some labels =>
      dsimp only
      by_cases hlen : vs.length ≠ labels.length
      · rw [if_pos hlen]
        constructor
        · intro _
          exact ⟨vs, rfl, Or.inr ⟨labels, rfl, hlen⟩⟩
        · intro _
          exact Or.inr rfl
      · rw [if_neg hlen]
        constructor
        · rintro (h | h) <;> cases h
        · rintro ⟨vs', hvs, hbad⟩
          injection hvs with hvs
          subst hvs
          rcases hbad with hnone | ⟨labels', hsome, hlen'⟩
          · cases hnone
          · injection hsome with hsome
            subst hsome
            exact absurd hlen' hlen

/-- C10: the per-file record of `_task` never contains two entries for one
key, and the value it holds under any key is the last value written for
that key when the initial `file` entry and then every parameter result
entry are merged in registration order — so a later-registered parameter's
entry silently overwrites an earlier one under the same key, and a
parameter whose result key is `file` overwrites the filename entry. -/
theorem task_last_writer_wins {S : Type} (api : SurfaceAPI S) (fp : FPath)
    (ops : List Operation) (params : List Parameter) (s0 : S) (es : List Dict)
    (hload : api.load fp = Except.ok s0)
    (hev : evalParams api (finalSurface api s0 ops) params = Except.ok es) :
    ∀ r, task api fp ops params = Except.ok r →
      (dictKeys r).Nodup
      ∧ ∀ k, dictLookup r k
          = lastValue (("file", PyVal.scalar (PyScalar.pstr fp.name)) :: es.flatten) k := by
  intro r hr
  rw [task_ok api fp ops params s0 es hload hev] at hr
  injection hr with hr
  subst hr
  constructor
  · exact foldl_dictUpdate_nodup es _ (List.nodup_singleton "file")
  · intro k
    rw [dictLookup_foldl_dictUpdate]
    have hsingle : dictLookup [("file", PyVal.scalar (PyScalar.pstr fp.name))] k
        = lastValue [("file", PyVal.scalar (PyScalar.pstr fp.name))] k := by
      rw [dictLookup_cons, lastValue_cons]
      cases hk : decide (("file" : String) = k) with
      | true =>
        have hk' := of_decide_eq_true hk
        simp [hk', lastValue, Option.or]
      | false =>
        have hk' := of_decide_eq_false hk
        simp [hk', lastValue, dictLookup, Option.or]
    rw [hsingle]
    have happ := lastValue_append [("file", PyVal.scalar (PyScalar.pstr fp.name))]
      es.flatten k
    rw [show ("file", PyVal.scalar (PyScalar.pstr fp.name)) :: es.flatten
        = [("file", PyVal.scalar (PyScalar.pstr fp.name))] ++ es.flatten from rfl, happ]

/-- Witness for C10 at a concrete input: registering the scalar capability
named `file` makes its value overwrite the filename entry of the record for
`b.ext`, the record keeping a single `file` entry. -/
theorem task_last_writer_wins_witness :
    (dictKeys [(("file" : String), PyVal.scalar (PyScalar.pint 42))]).Nodup
    ∧ dictLookup [(("file" : String), PyVal.scalar (PyScalar.pint 42))] "file"
        = lastValue [("file", PyVal.scalar (PyScalar.pstr "b.ext")),
                     ("file", PyVal.scalar (PyScalar.pint 42))] "file" := by
  have h := task_last_writer_wins demoApi ⟨["b.ext"]⟩ []
    [Parameter.ofIdentifier "file"] 0 [[("file", PyVal.scalar (PyScalar.pint 42))]]
    rfl rfl [("file", PyVal.scalar (PyScalar.pint 42))] rfl
  exact ⟨h.1, h.2 "file"⟩

/-- C4: when external metadata was supplied, `_construct_dataframe` joins
the metadata table and the per-file results on the `file` key with
inner-join semantics: every output row arises from a metadata row and a
result row agreeing on their `file` value, and every such matching pair
contributes its merged row — so rows present in only one of the two tables
are dropped. -/
theorem construct_dataframe_inner_join (b : Batch) (t : Table)
    (results : List Dict) (hmeta : b.additional_data = Option.some t) :
    (∀ r ∈ constructDataframe b results,
        ∃ m ∈ t.rows, ∃ d ∈ results,
          dictLookup m "file" = dictLookup d "file" ∧ r = dictUpdate m d)
    ∧ (∀ m ∈ t.rows, ∀ d ∈ results,
        dictLookup m "file" = dictLookup d "file" →
        dictUpdate m d ∈ constructDataframe b results) := by
  unfold constructDataframe
  rw [hmeta]
  constructor
  · intro r hr
    unfold mergeInner at hr
    rcases List.mem_flatMap.mp hr with ⟨m, hm, hr2⟩
    rcases List.mem_map.mp hr2 with ⟨d, hd, hupd⟩
    have hd' := List.mem_filter.mp hd
    exact ⟨m, hm, d, hd'.1, (of_decide_eq_true hd'.2).symm, hupd.symm⟩
  · intro m hm d hd hfile
    unfold mergeInner
    apply List.mem_flatMap.mpr
    refine ⟨m, hm, ?_⟩
    apply List.mem_map.mpr
    exact ⟨d, List.mem_filter.mpr ⟨hd, decide_eq_true hfile.symm⟩, rfl⟩

/-- Witness for C4 at a concrete input: the metadata row for `a.ext` and
the result row for `a.ext` agree on `file`, so their merged row is in the
output of `_construct_dataframe`. -/
theorem construct_dataframe_inner_join_witness :
    dictUpdate mdRowA resRowA ∈ constructDataframe batchWithMeta [resRowA, resRowC] :=
  (construct_dataframe_inner_join batchWithMeta mdTable [resRowA, resRowC] rfl).2
    mdRowA (by decide) resRowA (by decide) (by decide)

/-- Counterexample to C5 as stated: the result row for `c.ext` has no
matching metadata row, and no row of the assembled dataset carries its
`file` value — a per-file result row is not retained, so the merge is not
a left join keeping every result row. -/
theorem construct_dataframe_not_left_join :
    resRowC ∈ [resRowA, resRowC]
    ∧ ∀ r ∈ constructDataframe batchWithMeta [resRowA, resRowC],
        dictLookup r "file" ≠ Option.some (PyVal.scalar (PyScalar.pstr "c.ext")) := by
  decide

/-- C5 as amended: when external metadata was supplied the Result Assembler
inner-joins it with the per-file results on the `file` key, so a per-file
result row is retained only when a metadata row matches its `file` value:
every row of the final dataset takes its `file` value from a matching
metadata row, and a result row matched by no metadata row contributes no
output row (rows of well-formed result records have pairwise-distinct
keys, which the hypothesis `hnd` records). -/
theorem construct_dataframe_drops_unmatched (b : Batch) (t : Table)
    (results : List Dict) (hmeta : b.additional_data = Option.some t)
    (hnd : ∀ d ∈ results, (dictKeys d).Nodup) :
    ∀ d ∈ results,
      (∀ m ∈ t.rows, dictLookup m "file" ≠ dictLookup d "file") →
      ∀ r ∈ constructDataframe b results,
        dictLookup r "file" ≠ dictLookup d "file" := by
  intro d hd hnomatch r hr hreq
  rcases (construct_dataframe_inner_join b t results hmeta).1 r hr
    with ⟨m, hm, d', hd', hfile, hupd⟩
  have hlook : dictLookup r "file" = (dictLookup d' "file").or (dictLookup m "file") := by
    rw [hupd, dictLookup_dictUpdate, lastValue_eq_dictLookup d' "file" (hnd d' hd')]
  cases hcase : dictLookup d' "file" with
  | none =>
    rw [hcase, Option.none_or] at hlook
    exact hnomatch m hm (hlook ▸ hreq)
  | some v =>
    rw [hcase, Option.or_some] at hlook
    have : dictLookup m "file" = dictLookup d "file" := by
      rw [hfile, hcase, ← hlook]
      exact hreq
    exact hnomatch m hm this

/-- Witness for C5's amended statement at a concrete input: the single
output row of the metadata merge does not carry the `file` value of the
unmatched result row `c.ext`. -/
theorem construct_dataframe_drops_unmatched_witness :
    dictLookup (dictUpdate mdRowA resRowA) "file" ≠ dictLookup resRowC "file" :=
  construct_dataframe_drops_unmatched batchWithMeta mdTable [resRowA, resRowC]
    rfl (by decide) resRowC (by decide) (by decide)
    (dictUpdate mdRowA resRowA) (by decide)

/-- C6: `Batch.execute` raises the usage error
`BatchError('No operations of parameters defined.')` exactly when zero
operations and zero parameters are registered.  The equivalence holds for
every collaborator — in particular for one whose loader always fails — so
the error is raised before any file is loaded; and when at least one
operation or parameter is registered the execution never produces this
error, any failure being a load or configuration error instead. -/
theorem execute_usage_error_iff {S : Type} (api : SurfaceAPI S) (b : Batch) :
    Batch.execute api b = Except.error PyError.batchNoOpsOrParams
      ↔ (b.parameters = [] ∧ b.operations = []) := by
  unfold Batch.execute
  by_cases hc : (b.parameters.isEmpty && b.operations.isEmpty) = true
  · rw [if_pos hc]
    simp only [Bool.and_eq_true, List.isEmpty_iff] at hc
    simp [hc]
  · rw [if_neg hc]
    have hne : ¬(b.parameters = [] ∧ b.operations = []) := by
      rintro ⟨h1, h2⟩
      exact hc (by simp [h1, h2])
    constructor
    · intro h
      exfalso
      cases hd : dispatchTasks api b.filepaths b.operations b.parameters with
      | error e =>
        rw [hd] at h
        injection h with h
        subst h
        rcases dispatchTasks_error api b.filepaths b.operations b.parameters _ hd
          with ⟨fp, _, hte⟩
        rcases task_error_shape api fp b.operations b.parameters _ hte
          with ⟨msg, hmsg⟩ | ⟨idf, hb⟩ | hb
        · cases hmsg
        · cases hb
        · cases hb
      | ok rs =>
        rw [hd] at h
        cases h
    · intro h
      exact absurd h hne

/-- C7: accessing an identifier that is not an explicitly defined attribute
of the Batch controller resolves through `__getattr__`: when the identifier
is in `Surface.AVAILABLE_PARAMETERS`, calling it with any positional and
keyword arguments appends exactly one `Parameter` carrying those arguments
and returns the controller itself (every other field unchanged, supporting
chaining); otherwise the access raises `AttributeError`, the same error
class as for a genuinely missing attribute. -/
theorem getattr_fallback {S : Type} (api : SurfaceAPI S) (b : Batch)
    (attr : String) (args : List PyVal) (kwargs : List (String × PyVal)) :
    (attr ∈ api.availableParameters →
      Batch.getattrCall api b attr args kwargs
        = Except.ok { b with parameters :=
            b.parameters ++ [{ identifier := attr, args := args, kwargs := kwargs }] })
    ∧ (attr ∉ api.availableParameters →
      Batch.getattrCall api b attr args kwargs
        = Except.error (PyError.attributeError attr)) := by
  constructor <;> intro h <;> simp [Batch.getattrCall, h]

/-- Witness for C7 at concrete inputs: `Sa` is published, so calling it
registers the parameter and returns the controller; `Szz` is not, so the
access fails with the `AttributeError`-class error. -/
theorem getattr_fallback_witness :
    Batch.getattrCall demoApi emptyBatch "Sa" [] []
      = Except.ok { emptyBatch with parameters := [Parameter.ofIdentifier "Sa"] }
    ∧ Batch.getattrCall demoApi emptyBatch "Szz" [] []
      = Except.error (PyError.attributeError "Szz") :=
  ⟨(getattr_fallback demoApi emptyBatch "Sa" [] []).1 (by decide),
   (getattr_fallback demoApi emptyBatch "Szz" [] []).2 (by decide)⟩

/-- C8: `Batch.roughness_parameters` called with no argument appends a
default-argument `Parameter` for every identifier of
`Surface.AVAILABLE_PARAMETERS`, each exactly once when the published set is
duplicate-free; called with an explicit list it appends, in list order, a
default-argument `Parameter` for each bare string entry and each fully
specified `Parameter` unchanged; and in both cases it returns the
controller itself, every other field unchanged. -/
theorem roughness_parameters_spec {S : Type} (api : SurfaceAPI S) (b : Batch) :
    ((Batch.roughness_parameters api b Option.none).parameters
        = b.parameters ++ api.availableParameters.map Parameter.ofIdentifier)
    ∧ (api.availableParameters.Nodup →
        ∀ a ∈ api.availableParameters,
          (api.availableParameters.map Parameter.ofIdentifier).count
              (Parameter.ofIdentifier a) = 1)
    ∧ (∀ l : List ParamSpec,
        (Batch.roughness_parameters api b (Option.some l)).parameters
          = b.parameters ++ l.map ParamSpec.toParameter)
    ∧ (∀ x, (Batch.roughness_parameters api b x).filepaths = b.filepaths
        ∧ (Batch.roughness_parameters api b x).operations = b.operations
        ∧ (Batch.roughness_parameters api b x).additional_data = b.additional_data) := by
  have hfold : ∀ (ps : List ParamSpec) (b0 : Batch),
      (ps.foldl (fun acc spec =>
          { acc with parameters := acc.parameters ++ [spec.toParameter] }) b0)
        = { b0 with parameters := b0.parameters ++ ps.map ParamSpec.toParameter } := by
    intro ps
    induction ps with
    | nil => intro b0; simp
    | cons spec ps ih =>
      intro b0
      rw [List.foldl_cons, ih]
      simp
  have hinj : Function.Injective Parameter.ofIdentifier := by
    intro a b h
    exact congrArg Parameter.identifier h
  have hcomp : List.map ParamSpec.toParameter
        (List.map ParamSpec.ident api.availableParameters)
      = List.map Parameter.ofIdentifier api.availableParameters := by
    rw [List.map_map]
    exact List.map_congr_left (fun a _ => rfl)
  refine ⟨?_, ?_, ?_, ?_⟩
  · unfold Batch.roughness_parameters
    dsimp only
    rw [hfold]
    dsimp only
    rw [hcomp]
  · intro hnd a ha
    exact List.count_eq_one_of_mem (hnd.map hinj)
      (List.mem_map_of_mem Parameter.ofIdentifier ha)
  · intro l
    unfold Batch.roughness_parameters
    rw [hfold]
  · intro x
    unfold Batch.roughness_parameters
    cases x <;> rw [hfold] <;> exact ⟨rfl, rfl, rfl⟩

/-- Witness for C8 at a concrete input: bulk registration with no argument
on the demo collaborator registers `Sa`, `Sq`, `pair` once each with
default arguments, and an explicit mixed list registers its entries in
order. -/
theorem roughness_parameters_spec_witness :
    (Batch.roughness_parameters demoApi emptyBatch Option.none).parameters
      = [Parameter.ofIdentifier "Sa", Parameter.ofIdentifier "Sq",
         Parameter.ofIdentifier "pair"]
    ∧ ([Parameter.ofIdentifier "Sa", Parameter.ofIdentifier "Sq",
        Parameter.ofIdentifier "pair"].count (Parameter.ofIdentifier "Sa") = 1) :=
  ⟨(roughness_parameters_spec demoApi emptyBatch).1,
   (roughness_parameters_spec demoApi emptyBatch).2.1 (by decide) "Sa" (by decide)⟩

/-- C9: constructing the Batch controller with an external metadata table
raises the usage error exactly when the loaded table lacks a column named
`file`; when the metadata argument is omitted, construction succeeds and
never raises that error. -/
theorem batch_init_file_column (filepaths : List FPath) :
    (∀ t : Table,
        ("file" ∉ t.columns →
          Batch.init filepaths (Option.some t)
            = Except.error PyError.fileColumnMissing)
        ∧ ("file" ∈ t.columns →
          Batch.init filepaths (Option.some t)
            = Except.ok { filepaths := filepaths, operations := [],
                          parameters := [], additional_data := Option.some t }))
    ∧ Batch.init filepaths Option.none
        = Except.ok { filepaths := filepaths, operations := [], parameters := [],
                      additional_data := Option.none } := by
  refine ⟨fun t => ⟨fun h => ?_, fun h => ?_⟩, rfl⟩
  · simp [Batch.init, h]
  · simp [Batch.init, h]

/-- Witness for C9 at a concrete input: a loaded metadata table without a
`file` column makes construction fail with the usage error. -/
theorem batch_init_file_column_witness :
    Batch.init [] (Option.some noFileTable)
      = Except.error PyError.fileColumnMissing :=
  ((batch_init_file_column []).1 noFileTable).1 (by decide)

end Surfalize
